import Mathlib

/-! # Verification of the `userconfig` schema-translation utilities

Shallow embedding of `internal/schemautil/userconfig/util.go`.

Modelling conventions.

* A Go `string` is modelled by a Lean `String` (a sequence of Unicode scalar values), i.e. the
  valid UTF-8 Go strings.  Every pattern the code searches for is ASCII, so the byte-level
  library operations (`strings.ReplaceAll`, `strings.Contains`) coincide with the
  character-level ones used here.
* A Go `panic` is modelled by the `error` case of `Except Panic`.
* A Go `interface{}` holding a value decoded from the YAML schema description is modelled by
  `Value`; a `map[string]interface{}` is an association list read with `List.lookup`
  (a nil map reads like the empty one).
* The process-wide variable `cachedRepresentationMaps` is threaded explicitly as a `Cache`.
-/

namespace Userconfig

/-! ## Data model -/

/-- Dynamic values held in an `interface{}` after decoding the YAML description:
`seq` is Go's `[]interface{}` and `map` is Go's `map[string]interface{}`;
`float` carries the bit pattern of a `float64`, which is never inspected. -/
inductive Value where
  | null
  | bool (b : Bool)
  | int (i : Int)
  | float (bits : Nat)
  | str (s : String)
  | seq (xs : List Value)
  | map (kvs : List (String × Value))

/-- The panics raised by the functions of `util.go`, one constructor per panic site. -/
inductive Panic where
  /-- Raised by `panic(fmt.Sprintf("unknown schema type: %d", st))`. -/
  | unknownSchemaType (st : Int)
  /-- Raised by `panic(err)` after a failed `yaml.Unmarshal`. -/
  | yamlError (msg : String)
  /-- Raised by `panic(fmt.Sprintf("unknown type: %s", v))`. -/
  | unknownType (v : String)
  /-- Raised by `panic(fmt.Sprintf("not a slice: %#v", v))`. -/
  | notASlice
  /-- Raised by `panic(fmt.Sprintf("value is not a string: %#v", v))`. -/
  | notAString
  /-- Raised by `panic(fmt.Sprintf("value is not a string or a slice of strings: %#v", v))`. -/
  | notAStringOrSlice
  /-- The runtime panic of the failed single-value type assertion `p["title"].(string)`. -/
  | typeAssertion

/-! ## `TerraformTypes` -/

/-- The loop of `TerraformTypes`: `r` and `ar` are the two slices built so far. -/
def TerraformTypes.loop : List String → List String → List String →
    Except Panic (List String × List String)
  | [], r, ar => .ok (r, ar)
  | v :: rest, r, ar =>
    if v = "null" then
      -- `continue`: neither slice is extended
      TerraformTypes.loop rest r ar
    else if v = "boolean" then
      TerraformTypes.loop rest (r ++ ["TypeBool"]) (ar ++ [v])
    else if v = "integer" then
      TerraformTypes.loop rest (r ++ ["TypeInt"]) (ar ++ [v])
    else if v = "number" then
      TerraformTypes.loop rest (r ++ ["TypeFloat"]) (ar ++ [v])
    else if v = "string" then
      TerraformTypes.loop rest (r ++ ["TypeString"]) (ar ++ [v])
    else if v = "array" ∨ v = "object" then
      TerraformTypes.loop rest (r ++ ["TypeList"]) (ar ++ [v])
    else
      .error (Panic.unknownType v)

/-- `TerraformTypes` converts schema representation types to Terraform types. -/
def TerraformTypes (t : List String) : Except Panic (List String × List String) :=
  TerraformTypes.loop t [] []

/-- The seven type names of the schema representation that `TerraformTypes` has a case for. -/
def knownTypeNames : List String :=
  ["null", "boolean", "integer", "number", "string", "array", "object"]

/-! ## Library string functions used by the code (package `strings`) -/

/-- Scanner behind `strings.ReplaceAll` for a non-empty `old`: the leftmost occurrence of `old`
is replaced, the search resumes right after it, so replaced instances never overlap.
The counter is the number of characters of the current occurrence still to be skipped. -/
def replaceAllFrom (old new : List Char) : Nat → List Char → List Char
  | _, [] => []
  | skip + 1, _ :: s => replaceAllFrom old new skip s
  | 0, c :: s =>
    if old.isPrefixOf (c :: s) then new ++ replaceAllFrom old new (old.length - 1) s
    else c :: replaceAllFrom old new 0 s

/-- Go's `strings.ReplaceAll(s, old, new)`: all non-overlapping instances of `old` replaced by
`new`; an empty `old` matches at the beginning of the string and after each character. -/
def ReplaceAll (s old new : String) : String :=
  if old.data = [] then ⟨new.data ++ s.data.foldr (fun c acc => c :: (new.data ++ acc)) []⟩
  else ⟨replaceAllFrom old.data new.data 0 s.data⟩

/-- Search behind `strings.Contains`: does `sub` start at some position of the text. -/
def containsFrom (sub : List Char) : List Char → Bool
  | [] => sub.isPrefixOf []
  | c :: s => sub.isPrefixOf (c :: s) || containsFrom sub s

/-- Go's `strings.Contains(s, substr)`. -/
def Contains (s substr : String) : Bool :=
  containsFrom substr.data s.data

/-- Lower-casing of an ASCII character: `'A'..'Z'` are shifted by `'a' - 'A'`. -/
def asciiToLower (c : Char) : Char :=
  if 65 ≤ c.toNat ∧ c.toNat ≤ 90 then Char.ofNat (c.toNat + 32) else c

/-- Go's `strings.ToLower`.  An ASCII-only string takes the fast path; otherwise every character
goes through `unicode.ToLower`, which agrees with `asciiToLower` below `utf8.RuneSelf` and
consults the Unicode case tables above it.  Those tables are library data and are taken as the
parameter `caseTable`. -/
def ToLower (caseTable : Char → Char) (s : String) : String :=
  if s.data.all (fun c => c.toNat < 128) then ⟨s.data.map asciiToLower⟩
  else ⟨s.data.map (fun c => if c.toNat < 128 then asciiToLower c else caseTable c)⟩

/-! ## Key escaping -/

/-- `EncodeKey` encodes a key for a Terraform schema. -/
def EncodeKey (k : String) : String :=
  ReplaceAll k "." "__dot__"

/-- `DecodeKey` is the reverse substitution. -/
def DecodeKey (k : String) : String :=
  ReplaceAll k "__dot__" "."

/-! ## Coercion to a slice of strings -/

/-- The loop of `mustStringSlice`: `r` is the pre-sized result slice and `k` the loop index;
iteration `k` stores the element at `r[k]`. -/
def mustStringSlice.loop : List Value → Nat → List String → Except Panic (List String)
  | [], _, r => .ok r
  | Value.str va :: rest, k, r => mustStringSlice.loop rest (k + 1) (r.set k va)
  | _ :: _, _, _ => .error Panic.notAString

/-- `mustStringSlice` converts an interface to a slice of strings. -/
def mustStringSlice : Value → Except Panic (List String)
  | Value.seq va => mustStringSlice.loop va 0 (List.replicate va.length "")
  | _ => .error Panic.notASlice

/-- `SlicedString` accepts a string or a slice of strings and returns a slice of strings. -/
def SlicedString : Value → Except Panic (List String)
  | Value.seq va => mustStringSlice (Value.seq va)
  | Value.str vsa => .ok [vsa]
  | _ => .error Panic.notAStringOrSlice

/-! ## Description of a property -/

/-- `descriptionForProperty` returns the label and the description for a property. -/
def descriptionForProperty (caseTable : Char → Char) (p : List (String × Value)) :
    Except Panic (String × String) :=
  match p.lookup "description" with
  | some (Value.str d) =>
    if Contains (ToLower caseTable d) "deprecated" then .ok ("Deprecated", d)
    else .ok ("Description", d)
  | _ =>
    match p.lookup "title" with
    | some (Value.str t) => .ok ("Description", t)
    | _ => .error Panic.typeAssertion

/-! ## The cache of parsed representations -/

/-- `SchemaType` is a custom type (a Go `int`) that represents a Terraform schema type. -/
abbrev SchemaType := Int

/-- The first value of the enumeration. -/
def ServiceTypes : SchemaType := 0

/-- The second value of the enumeration. -/
def IntegrationTypes : SchemaType := 1

/-- The third value of the enumeration. -/
def IntegrationEndpointTypes : SchemaType := 2

/-- A parsed representation, Go's `map[string]interface{}`. -/
abbrev RepresentationMap := List (String × Value)

/-- The state of the package variable `cachedRepresentationMaps`. -/
abbrev Cache := List (SchemaType × RepresentationMap)

/-- The map assignment `cachedRepresentationMaps[st] = m`. -/
def Cache.set (cache : Cache) (st : SchemaType) (m : RepresentationMap) : Cache :=
  (st, m) :: cache.filter (fun e => e.1 != st)

/-- The three embedded YAML documents of package `dist`, as byte sequences. -/
structure Dist where
  /-- Embedded description of the service types. -/
  ServiceTypes : List Nat
  /-- Embedded description of the integration types. -/
  IntegrationTypes : List Nat
  /-- Embedded description of the integration endpoint types. -/
  IntegrationEndpointTypes : List Nat

/-- `representationToMap` converts a YAML representation of a Terraform schema to a map and
stores it in the cache.  The decoder `yaml.Unmarshal` is library code, taken as the parameter
`unmarshal`.  The result is the returned value (or the panic) and the cache afterwards. -/
def representationToMap (unmarshal : List Nat → Except String RepresentationMap)
    (st : SchemaType) (r : List Nat) (cache : Cache) :
    Except Panic RepresentationMap × Cache :=
  match unmarshal r with
  | .error err => (.error (Panic.yamlError err), cache)
  | .ok m => (.ok m, cache.set st m)

/-- `CachedRepresentationMap` returns a cached representation map.  The result is the returned
value (or the panic) and the cache afterwards. -/
def CachedRepresentationMap (unmarshal : List Nat → Except String RepresentationMap)
    (dist : Dist) (st : SchemaType) (cache : Cache) :
    Except Panic RepresentationMap × Cache :=
  if ¬ (st = ServiceTypes ∨ st = IntegrationTypes ∨ st = IntegrationEndpointTypes) then
    (.error (Panic.unknownSchemaType st), cache)
  else
    let populated : Except Panic RepresentationMap × Cache :=
      match cache.lookup st with
      | some m => (.ok m, cache)
      | none =>
        if st = ServiceTypes then representationToMap unmarshal st dist.ServiceTypes cache
        else if st = IntegrationTypes then
          representationToMap unmarshal st dist.IntegrationTypes cache
        else if st = IntegrationEndpointTypes then
          representationToMap unmarshal st dist.IntegrationEndpointTypes cache
        else (.ok [], cache)
    match populated with
    | (.error err, cache1) => (.error err, cache1)
    | (.ok _, cache1) => (.ok ((cache1.lookup st).getD []), cache1)

/-- The projection of a schema type name onto a Terraform type name, as a relation. -/
def Projects (a c : String) : Prop :=
  (a = "boolean" ∧ c = "TypeBool") ∨ (a = "integer" ∧ c = "TypeInt") ∨
  (a = "number" ∧ c = "TypeFloat") ∨ (a = "string" ∧ c = "TypeString") ∨
  (a = "array" ∧ c = "TypeList") ∨ (a = "object" ∧ c = "TypeList")

/-- `isTerraformTypePrimitive` checks if a Terraform type is a primitive type. -/
def isTerraformTypePrimitive (t : String) : Bool :=
  if t = "TypeBool" ∨ t = "TypeInt" ∨ t = "TypeFloat" ∨ t = "TypeString" then true
  else false

/-- Scanner behind `strings.Split` for a non-empty separator: `cur` is the chunk being read;
at the leftmost occurrence of `sep` the chunk is closed and the scan resumes right after the
separator.  The counter is the number of separator characters still to be skipped. -/
def splitFrom (sep : List Char) : Nat → List Char → List Char → List String
  | _, cur, [] => [⟨cur⟩]
  | skip + 1, cur, _ :: s => splitFrom sep skip cur s
  | 0, cur, c :: s =>
    if sep.isPrefixOf (c :: s) then ⟨cur⟩ :: splitFrom sep (sep.length - 1) [] s
    else splitFrom sep 0 (cur ++ [c]) s

/-- Go's `strings.Split(s, sep)`: the substrings between the occurrences of `sep`; a text
without `sep` gives the one-element slice holding the text; an empty `sep` splits after each
character. -/
def Split (s sep : String) : List String :=
  if sep.data = [] then s.data.map (fun c => ⟨[c]⟩)
  else splitFrom sep.data 0 [] s.data

end Userconfig

/-! # The VPC peering connection resource

Shallow embedding of the pure helpers of
`internal/service/vpc/resource_vpc_peering_connection.go`.  A `*string` is an `Option String`,
a `*map[string]interface{}` is an `Option` of an association list whose order stands for the
order in which the runtime iterates over the map, and a runtime panic (nil dereference, index
out of range) is the `none` result. -/

namespace Vpc

open Userconfig

/-- `validateVPCID` is the `ValidateFunc` of the `vpc_id` attribute; the result is the pair of
the warnings and the errors, each error given by its message. -/
def validateVPCID (i : Value) (k : String) : List String × List String :=
  match i with
  | Value.str v =>
    if (Split v "/").length ≠ 2 then
      ([], [] ++ ["invalid " ++ k ++ ", expected <project_name>/<vpc_id>"])
    else ([], [])
  | _ => ([], [] ++ ["expected type of " ++ k ++ " to be string"])

/-- `OptionalStringPointer` returns string pointer or nil. -/
def OptionalStringPointer (s : String) : Option String :=
  if s = "" then none else some s

/-- The verbs of package `fmt` that `stateInfoToString` applies to map keys and values.  They
are library code and are taken as parameters. -/
structure Formatter where
  /-- The verb `%q` on a string: the quoted form of the string. -/
  quote : String → String
  /-- The verb `%+v` on a value that is not a string. -/
  plusV : Value → String
  /-- The verb `%s` on a value that is not a string. -/
  verbS : Value → String

/-- The call `fmt.Sprintf("%s", m)` on an `interface{}`: a string is printed as it is. -/
def sprintS (fmt : Formatter) : Value → String
  | Value.str m => m
  | v => fmt.verbS v

/-- One iteration of the `range` loop of `stateInfoToString`: the text appended for the entry
`(k, v)`. -/
def stateInfoEntry (fmt : Formatter) (e : String × Value) : String :=
  match e.2 with
  | Value.str v => "\n " ++ fmt.quote e.1 ++ ":" ++ fmt.quote v
  | v => "\n " ++ fmt.quote e.1 ++ ":`" ++ fmt.plusV v ++ "`"

/-- `stateInfoToString` converts VPC peering connection state_info to a string.  The result is
the string and the map afterwards (the call deletes the key `message`); `none` is the panic
of dereferencing a nil pointer. -/
def stateInfoToString (fmt : Formatter) (s : Option (List (String × Value))) :
    Option (String × List (String × Value)) :=
  match s with
  | none => none
  | some m =>
    if m.length = 0 then some ("", m)
    else
      let printed : String × List (String × Value) :=
        match m.lookup "message" with
        | some msg => (sprintS fmt msg, m.filter (fun e => e.1 != "message"))
        | none => ("", m)
      some (printed.2.foldl (fun str e => str ++ stateInfoEntry fmt e) printed.1, printed.2)

/-- The constant `peeringVPCIDSize`. -/
def peeringVPCIDSize : Int := 4

/-- The constant `peeringVPCIDSizeWithRegion`. -/
def peeringVPCIDSizeWithRegion : Int := 5

/-- The parsed resource id of a peering connection. -/
structure peeringVPCID where
  /-- Chunk 0 of the id. -/
  projectName : String
  /-- Chunk 1 of the id. -/
  vpcID : String
  /-- Chunk 2 of the id. -/
  peerCloudAccount : String
  /-- Chunk 3 of the id. -/
  peerVPC : String
  /-- Chunk 4 of the id if the id is parsed with a region, otherwise nil. -/
  peerRegion : Option String

/-- `parsePeerVPCIDSized` splits string id like "my-project/id/id/my-vpc" + optional
"/region".  The outer `Option` is `none` when an index expression is out of range; the inner
result is the returned error message or the parsed id. -/
def parsePeerVPCIDSized (src : String) (size : Int) : Option (Except String peeringVPCID) :=
  let chunks := Split src "/"
  if (chunks.length : Int) ≠ size then
    some (.error ("expected unix path-like string with " ++ toString size ++ " chunks"))
  else
    match chunks[0]?, chunks[1]?, chunks[2]?, chunks[3]? with
    | some c0, some c1, some c2, some c3 =>
      if size = peeringVPCIDSizeWithRegion then
        match chunks[4]? with
        | some c4 => some (.ok ⟨c0, c1, c2, c3, some c4⟩)
        | none => none
      else some (.ok ⟨c0, c1, c2, c3, none⟩)
    | _, _, _, _ => none

/-- `parsePeerVPCID` parses an id of four chunks. -/
def parsePeerVPCID (src : String) : Option (Except String peeringVPCID) :=
  parsePeerVPCIDSized src peeringVPCIDSize

/-- `parsePeerVPCIDWithRegion` parses an id of five chunks. -/
def parsePeerVPCIDWithRegion (src : String) : Option (Except String peeringVPCID) :=
  parsePeerVPCIDSized src peeringVPCIDSizeWithRegion

/-- The severities of package `diag`. -/
inductive Severity where
  | Error
  | Warning
  deriving DecidableEq

/-- A diagnostic of package `diag`. -/
structure Diagnostic where
  /-- Error or warning. -/
  Severity : Severity
  /-- The short description. -/
  Summary : String
  /-- The long description, empty when not given. -/
  Detail : String := ""

/-- The call `diag.Errorf(format, a...)`, given the formatted message: one diagnostic of
severity `Error` with the message as summary. -/
def Errorf (msg : String) : List Diagnostic :=
  [{ Severity := Severity.Error, Summary := msg }]

/-- The method `Diagnostics.HasError`: some diagnostic has severity `Error`. -/
def HasError (diags : List Diagnostic) : Bool :=
  diags.any (fun d => decide (d.Severity = Severity.Error))

/-- The fields of `aiven.VPCPeeringConnection` that `getDiagnosticsFromState` reads. -/
structure VPCPeeringConnection where
  /-- The state of the peering connection. -/
  State : String
  /-- State-specific help or error information, a nil pointer when absent. -/
  StateInfo : Option (List (String × Value))

/-- `getDiagnosticsFromState` turns the state of a peering connection into diagnostics.  The
result is the diagnostics and the connection afterwards (printing the state info deletes its
key `message`); `none` is the panic of dereferencing a nil `StateInfo`. -/
def getDiagnosticsFromState (fmt : Formatter) (pc : VPCPeeringConnection) :
    Option (List Diagnostic × VPCPeeringConnection) :=
  if pc.State ≠ "ACTIVE" then
    if pc.State = "PENDING_PEER" then
      match stateInfoToString fmt pc.StateInfo with
      | none => none
      | some (info, m) =>
        some ([{ Severity := Severity.Warning,
                 Summary := "Aiven platform has created a connection to the specified " ++
                   "peer successfully in the cloud, but the connection is not active until the user " ++
                   "completes the setup in their cloud account. The steps needed in the user cloud " ++
                   "account depend on the used cloud provider. Find more in the state info: " ++
                   info }],
          { pc with StateInfo := some m })
    else if pc.State = "DELETED" then
      some (Errorf ("A user has deleted the peering connection through the Aiven " ++
        "Terraform provider, or Aiven Web Console or directly via Aiven API. There are no " ++
        "transitions from this state"), pc)
    else if pc.State = "DELETED_BY_PEER" then
      some (Errorf ("A user deleted the peering cloud resource in their account. " ++
        "There are no transitions from this state"), pc)
    else if pc.State = "REJECTED_BY_PEER" then
      match stateInfoToString fmt pc.StateInfo with
      | none => none
      | some (info, m) =>
        some (Errorf ("VPC peering connection request was rejected, state info: " ++ info),
          { pc with StateInfo := some m })
    else if pc.State = "INVALID_SPECIFICATION" then
      match stateInfoToString fmt pc.StateInfo with
      | none => none
      | some (info, m) =>
        some (Errorf ("VPC peering connection cannot be created, more in the state info: " ++
          info), { pc with StateInfo := some m })
    else
      some (Errorf ("Unknown VPC peering connection state: " ++ pc.State), pc)
  else some ([], pc)

end Vpc

namespace Userconfig

/-! ## Theorems about `TerraformTypes` -/

theorem mem_knownTypeNames (v : String) :
    v ∈ knownTypeNames ↔ v = "null" ∨ v = "boolean" ∨ v = "integer" ∨ v = "number" ∨
      v = "string" ∨ v = "array" ∨ v = "object" := by
  simp [knownTypeNames]

/-- Loop invariant of `TerraformTypes` on known names: the loop ends normally, having appended
to `ar` the names other than `"null"` and to `r` their projections. -/
theorem TerraformTypes.loop_known (t : List String) (ht : ∀ v ∈ t, v ∈ knownTypeNames) :
    ∀ r ar : List String, ∃ r1 ar1 : List String,
      TerraformTypes.loop t r ar = .ok (r ++ r1, ar ++ ar1) ∧
      ar1 = t.filter (fun v => decide (v ≠ "null")) ∧ List.Forall₂ Projects ar1 r1 := by
  induction t with
  | nil =>
    intro r ar
    exact ⟨[], [], by simp [TerraformTypes.loop], by simp, List.Forall₂.nil⟩
  | cons v rest ih =>
    intro r ar
    have hrest : ∀ w ∈ rest, w ∈ knownTypeNames := fun w hw => ht w (List.mem_cons_of_mem v hw)
    have hv := (mem_knownTypeNames v).1 (ht v (List.mem_cons_self v rest))
    rcases hv with h | h | h | h | h | h | h
    · obtain ⟨r1, ar1, h1, h2, h3⟩ := ih hrest r ar
      exact ⟨r1, ar1, by simp [TerraformTypes.loop, h, h1], by simp [h, h2], h3⟩
    · obtain ⟨r1, ar1, h1, h2, h3⟩ := ih hrest (r ++ ["TypeBool"]) (ar ++ [v])
      refine ⟨"TypeBool" :: r1, v :: ar1, ?_, ?_, List.Forall₂.cons ?_ h3⟩
      · subst h; simpa [TerraformTypes.loop] using h1
      · subst h; simp [h2]
      · subst h; simp [Projects]
    · obtain ⟨r1, ar1, h1, h2, h3⟩ := ih hrest (r ++ ["TypeInt"]) (ar ++ [v])
      refine ⟨"TypeInt" :: r1, v :: ar1, ?_, ?_, List.Forall₂.cons ?_ h3⟩
      · subst h; simpa [TerraformTypes.loop] using h1
      · subst h; simp [h2]
      · subst h; simp [Projects]
    · obtain ⟨r1, ar1, h1, h2, h3⟩ := ih hrest (r ++ ["TypeFloat"]) (ar ++ [v])
      refine ⟨"TypeFloat" :: r1, v :: ar1, ?_, ?_, List.Forall₂.cons ?_ h3⟩
      · subst h; simpa [TerraformTypes.loop] using h1
      · subst h; simp [h2]
      · subst h; simp [Projects]
    · obtain ⟨r1, ar1, h1, h2, h3⟩ := ih hrest (r ++ ["TypeString"]) (ar ++ [v])
      refine ⟨"TypeString" :: r1, v :: ar1, ?_, ?_, List.Forall₂.cons ?_ h3⟩
      · subst h; simpa [TerraformTypes.loop] using h1
      · subst h; simp [h2]
      · subst h; simp [Projects]
    · obtain ⟨r1, ar1, h1, h2, h3⟩ := ih hrest (r ++ ["TypeList"]) (ar ++ [v])
      refine ⟨"TypeList" :: r1, v :: ar1, ?_, ?_, List.Forall₂.cons ?_ h3⟩
      · subst h; simpa [TerraformTypes.loop] using h1
      · subst h; simp [h2]
      · subst h; simp [Projects]
    · obtain ⟨r1, ar1, h1, h2, h3⟩ := ih hrest (r ++ ["TypeList"]) (ar ++ [v])
      refine ⟨"TypeList" :: r1, v :: ar1, ?_, ?_, List.Forall₂.cons ?_ h3⟩
      · subst h; simpa [TerraformTypes.loop] using h1
      · subst h; simp [h2]
      · subst h; simp [Projects]

/-- The loop of `TerraformTypes` panics as soon as the input holds an unknown name, whatever
the slices built so far. -/
theorem TerraformTypes.loop_unknown (t : List String) (ht : ∃ v ∈ t, v ∉ knownTypeNames) :
    ∀ r ar : List String, ∃ v, v ∈ t ∧ v ∉ knownTypeNames ∧
      TerraformTypes.loop t r ar = .error (Panic.unknownType v) := by
  induction t with
  | nil => obtain ⟨v, hv, _⟩ := ht; exact absurd hv (List.not_mem_nil v)
  | cons v rest ih =>
    intro r ar
    by_cases hv : v ∈ knownTypeNames
    · have hrest : ∃ w ∈ rest, w ∉ knownTypeNames := by
        obtain ⟨w, hw, hwk⟩ := ht
        rcases List.mem_cons.1 hw with rfl | hw
        · exact absurd hv hwk
        · exact ⟨w, hw, hwk⟩
      have key : ∀ r ar : List String, ∃ w, w ∈ v :: rest ∧ w ∉ knownTypeNames ∧
          TerraformTypes.loop rest r ar = .error (Panic.unknownType w) := fun r ar => by
        obtain ⟨w, hw, hwk, he⟩ := ih hrest r ar
        exact ⟨w, List.mem_cons_of_mem v hw, hwk, he⟩
      rcases (mem_knownTypeNames v).1 hv with h | h | h | h | h | h | h <;> subst h <;>
        simpa [TerraformTypes.loop] using key _ _
    · refine ⟨v, List.mem_cons_self v rest, hv, ?_⟩
      have hv2 := hv
      rw [mem_knownTypeNames] at hv2
      simp only [not_or] at hv2
      obtain ⟨h1, h2, h3, h4, h5, h6, h7⟩ := hv2
      simp [TerraformTypes.loop, h1, h2, h3, h4, h5, h6, h7]

/-- C1: on every input made only of the seven known names, `TerraformTypes` returns a pair
`(r, ar)` of equal length, where `ar` is the input with every `"null"` removed in order, and
at each position `r[i]` is the projection of `ar[i]`: boolean to TypeBool, integer to TypeInt,
number to TypeFloat, string to TypeString, array and object to TypeList. -/
theorem TerraformTypes_parallel_projection (t : List String)
    (ht : ∀ v ∈ t, v ∈ ["null", "boolean", "integer", "number", "string", "array", "object"]) :
    ∃ r ar : List String, TerraformTypes t = .ok (r, ar) ∧ r.length = ar.length ∧
      ar = t.filter (fun v => decide (v ≠ "null")) ∧
      ∀ (i : Nat) (hr : i < r.length) (ha : i < ar.length),
        (ar[i] = "boolean" ∧ r[i] = "TypeBool") ∨ (ar[i] = "integer" ∧ r[i] = "TypeInt") ∨
        (ar[i] = "number" ∧ r[i] = "TypeFloat") ∨ (ar[i] = "string" ∧ r[i] = "TypeString") ∨
        (ar[i] = "array" ∧ r[i] = "TypeList") ∨ (ar[i] = "object" ∧ r[i] = "TypeList") := by
  obtain ⟨r1, ar1, h1, h2, h3⟩ := TerraformTypes.loop_known t ht [] []
  refine ⟨r1, ar1, by simpa [TerraformTypes] using h1, h3.length_eq.symm, h2, ?_⟩
  intro i hr ha
  have := List.Forall₂.get h3 ha hr
  simpa [Projects] using this

/-- Witness for C1 on the union type `["string", "null", "object"]`. -/
theorem TerraformTypes_parallel_projection_witness :
    ∃ r ar : List String, TerraformTypes ["string", "null", "object"] = .ok (r, ar) ∧
      r.length = ar.length ∧
      ar = ["string", "null", "object"].filter (fun v => decide (v ≠ "null")) ∧
      ∀ (i : Nat) (hr : i < r.length) (ha : i < ar.length),
        (ar[i] = "boolean" ∧ r[i] = "TypeBool") ∨ (ar[i] = "integer" ∧ r[i] = "TypeInt") ∨
        (ar[i] = "number" ∧ r[i] = "TypeFloat") ∨ (ar[i] = "string" ∧ r[i] = "TypeString") ∨
        (ar[i] = "array" ∧ r[i] = "TypeList") ∨ (ar[i] = "object" ∧ r[i] = "TypeList") :=
  TerraformTypes_parallel_projection ["string", "null", "object"] (by decide)

/-- C2: `TerraformTypes` panics if and only if the input holds an element that is not one of
the seven known names; `["bogus"]` panics and the empty list gives two empty outputs. -/
theorem TerraformTypes_panics_iff_unknown :
    (∀ t : List String, (∃ e, TerraformTypes t = .error e) ↔
      ∃ v ∈ t, v ∉ ["null", "boolean", "integer", "number", "string", "array", "object"]) ∧
    TerraformTypes ["bogus"] = .error (Panic.unknownType "bogus") ∧
    TerraformTypes [] = .ok ([], []) := by
  refine ⟨fun t => ⟨fun h => ?_, fun h => ?_⟩, rfl, rfl⟩
  · by_contra hno
    have hall : ∀ v ∈ t, v ∈ knownTypeNames := by
      intro v hv
      by_contra hk
      exact hno ⟨v, hv, hk⟩
    obtain ⟨r1, ar1, h1, _, _⟩ := TerraformTypes.loop_known t hall [] []
    obtain ⟨e, he⟩ := h
    rw [TerraformTypes, h1] at he
    cases he
  · obtain ⟨v, _, _, he⟩ := TerraformTypes.loop_unknown t h [] []
    exact ⟨_, he⟩

/-! ## Theorems about key escaping -/

/-- Skipping `k` characters is scanning the text without its first `k` characters. -/
theorem replaceAllFrom_skip (old new : List Char) :
    ∀ (k : Nat) (s : List Char),
      replaceAllFrom old new k s = replaceAllFrom old new 0 (s.drop k) := by
  intro k
  induction k with
  | zero => intro s; simp
  | succ k ih =>
    intro s
    cases s with
    | nil => simp [replaceAllFrom]
    | cons c s => simp [replaceAllFrom, ih]

/-- One step of the scan that escapes dots. -/
theorem encode_cons (c : Char) (s : List Char) :
    replaceAllFrom ['.'] ['_', '_', 'd', 'o', 't', '_', '_'] 0 (c :: s) =
      if c = '.' then ['_', '_', 'd', 'o', 't', '_', '_'] ++
        replaceAllFrom ['.'] ['_', '_', 'd', 'o', 't', '_', '_'] 0 s
      else c :: replaceAllFrom ['.'] ['_', '_', 'd', 'o', 't', '_', '_'] 0 s := by
  by_cases h : c = '.'
  · subst h; simp [replaceAllFrom, List.isPrefixOf]
  · have h2 : ¬ '.' = c := fun e => h e.symm
    simp [replaceAllFrom, List.isPrefixOf, h, h2]

/-- The unescaping scan turns a leading escape token into a dot and resumes after it. -/
theorem decode_token_append (x : List Char) :
    replaceAllFrom ['_', '_', 'd', 'o', 't', '_', '_'] ['.'] 0
        (['_', '_', 'd', 'o', 't', '_', '_'] ++ x) =
      '.' :: replaceAllFrom ['_', '_', 'd', 'o', 't', '_', '_'] ['.'] 0 x := by
  simp [replaceAllFrom, List.isPrefixOf, replaceAllFrom_skip]

/-- The unescaping scan copies a character at which no escape token starts. -/
theorem decode_cons_of_no_token (c : Char) (s : List Char)
    (h : List.isPrefixOf ['_', '_', 'd', 'o', 't', '_', '_'] (c :: s) = false) :
    replaceAllFrom ['_', '_', 'd', 'o', 't', '_', '_'] ['.'] 0 (c :: s) =
      c :: replaceAllFrom ['_', '_', 'd', 'o', 't', '_', '_'] ['.'] 0 s := by
  rw [replaceAllFrom, h]; simp

/-- A text has no occurrence of the one-character pattern `"."` iff no character is a dot. -/
theorem containsFrom_dot (s : List Char) : containsFrom ['.'] s = false ↔ '.' ∉ s := by
  induction s with
  | nil => simp [containsFrom, List.isPrefixOf]
  | cons c s ih =>
    simp only [containsFrom, List.isPrefixOf, Bool.or_eq_false_iff, ih, List.mem_cons, not_or]
    constructor
    · rintro ⟨h1, h2⟩
      refine ⟨fun e => ?_, h2⟩
      subst e; simp at h1
    · rintro ⟨h1, h2⟩
      refine ⟨?_, h2⟩
      have : ¬ '.' = c := h1
      simp [this]

/-- Escaping leaves no dot behind. -/
theorem encode_no_dot (s : List Char) :
    '.' ∉ replaceAllFrom ['.'] ['_', '_', 'd', 'o', 't', '_', '_'] 0 s := by
  induction s with
  | nil => simp [replaceAllFrom]
  | cons c s ih =>
    rw [encode_cons]
    by_cases h : c = '.'
    · simp only [h, if_true, List.mem_append, not_or]
      exact ⟨by decide, ih⟩
    · simp only [h, if_false, List.mem_cons, not_or]
      exact ⟨fun e => h e.symm, ih⟩

/-- Unescaping then escaping gives back a text without dots (bounded form for the induction
on the length of the text). -/
theorem encode_decode_bounded :
    ∀ (n : Nat) (s : List Char), s.length ≤ n → '.' ∉ s →
      replaceAllFrom ['.'] ['_', '_', 'd', 'o', 't', '_', '_'] 0
        (replaceAllFrom ['_', '_', 'd', 'o', 't', '_', '_'] ['.'] 0 s) = s := by
  intro n
  induction n with
  | zero =>
    intro s hs _
    have : s = [] := List.length_eq_zero.1 (Nat.le_zero.1 hs)
    subst this
    simp [replaceAllFrom]
  | succ n ih =>
    intro s hs hdot
    cases s with
    | nil => simp [replaceAllFrom]
    | cons c s =>
      cases hp : List.isPrefixOf ['_', '_', 'd', 'o', 't', '_', '_'] (c :: s) with
      | false =>
        rw [decode_cons_of_no_token c s hp, encode_cons]
        have hc : c ≠ '.' := fun e => hdot (by simp [e])
        have hs2 : '.' ∉ s := fun m => hdot (List.mem_cons_of_mem c m)
        have hl : s.length ≤ n := by simpa using hs
        rw [if_neg hc, ih s hl hs2]
      | true =>
        obtain ⟨x, hx⟩ := List.isPrefixOf_iff_prefix.1 hp
        rw [← hx, decode_token_append, encode_cons, if_pos rfl]
        have hx2 : '.' ∉ x := fun m => hdot (by rw [← hx]; exact List.mem_append_right _ m)
        have hl : x.length ≤ n := by
          have := congrArg List.length hx
          simp at this hs
          omega
        rw [ih x hl hx2]

/-- If an escape token starts at a copied character of the escaped form of a text, then the
text itself starts with `__dot__`, with `__dot_.` or with `__dot.`. -/
theorem token_prefix_of_encode (c : Char) (s : List Char)
    (h : List.isPrefixOf ['_', '_', 'd', 'o', 't', '_', '_']
      (c :: replaceAllFrom ['.'] ['_', '_', 'd', 'o', 't', '_', '_'] 0 s) = true) :
    List.isPrefixOf ['_', '_', 'd', 'o', 't', '_', '_'] (c :: s) = true ∨
    List.isPrefixOf ['_', '_', 'd', 'o', 't', '_', '.'] (c :: s) = true ∨
    List.isPrefixOf ['_', '_', 'd', 'o', 't', '.'] (c :: s) = true := by
  simp only [List.isPrefixOf, Bool.and_eq_true, beq_iff_eq] at h ⊢
  obtain ⟨h0, h⟩ := h
  rcases s with _ | ⟨c1, s⟩
  · simp [replaceAllFrom, List.isPrefixOf] at h
  rw [encode_cons] at h
  by_cases e1 : c1 = '.'
  · simp [e1, List.isPrefixOf] at h
  rw [if_neg e1] at h
  simp only [List.isPrefixOf, Bool.and_eq_true, beq_iff_eq] at h
  obtain ⟨h1, h⟩ := h
  rcases s with _ | ⟨c2, s⟩
  · simp [replaceAllFrom, List.isPrefixOf] at h
  rw [encode_cons] at h
  by_cases e2 : c2 = '.'
  · simp [e2, List.isPrefixOf] at h
  rw [if_neg e2] at h
  simp only [List.isPrefixOf, Bool.and_eq_true, beq_iff_eq] at h
  obtain ⟨h2, h⟩ := h
  rcases s with _ | ⟨c3, s⟩
  · simp [replaceAllFrom, List.isPrefixOf] at h
  rw [encode_cons] at h
  by_cases e3 : c3 = '.'
  · simp [e3, List.isPrefixOf] at h
  rw [if_neg e3] at h
  simp only [List.isPrefixOf, Bool.and_eq_true, beq_iff_eq] at h
  obtain ⟨h3, h⟩ := h
  rcases s with _ | ⟨c4, s⟩
  · simp [replaceAllFrom, List.isPrefixOf] at h
  rw [encode_cons] at h
  by_cases e4 : c4 = '.'
  · simp [e4, List.isPrefixOf] at h
  rw [if_neg e4] at h
  simp only [List.isPrefixOf, Bool.and_eq_true, beq_iff_eq] at h
  obtain ⟨h4, h⟩ := h
  rcases s with _ | ⟨c5, s⟩
  · simp [replaceAllFrom, List.isPrefixOf] at h
  rw [encode_cons] at h
  by_cases e5 : c5 = '.'
  · right; right
    simp [List.isPrefixOf, ← h0, ← h1, ← h2, ← h3, ← h4, e5]
  rw [if_neg e5] at h
  simp only [List.isPrefixOf, Bool.and_eq_true, beq_iff_eq] at h
  obtain ⟨h5, h⟩ := h
  rcases s with _ | ⟨c6, s⟩
  · simp [replaceAllFrom, List.isPrefixOf] at h
  rw [encode_cons] at h
  by_cases e6 : c6 = '.'
  · right; left
    simp [List.isPrefixOf, ← h0, ← h1, ← h2, ← h3, ← h4, ← h5, e6]
  rw [if_neg e6] at h
  simp only [List.isPrefixOf, Bool.and_eq_true, beq_iff_eq] at h
  obtain ⟨h6, _⟩ := h
  left
  simp [List.isPrefixOf, ← h0, ← h1, ← h2, ← h3, ← h4, ← h5, ← h6]

/-- Escaping then unescaping gives back a text in which none of `__dot__`, `__dot_.` and
`__dot.` occurs. -/
theorem decode_encode_list (p : List Char)
    (h1 : containsFrom ['_', '_', 'd', 'o', 't', '_', '_'] p = false)
    (h2 : containsFrom ['_', '_', 'd', 'o', 't', '_', '.'] p = false)
    (h3 : containsFrom ['_', '_', 'd', 'o', 't', '.'] p = false) :
    replaceAllFrom ['_', '_', 'd', 'o', 't', '_', '_'] ['.'] 0
      (replaceAllFrom ['.'] ['_', '_', 'd', 'o', 't', '_', '_'] 0 p) = p := by
  induction p with
  | nil => simp [replaceAllFrom]
  | cons c p ih =>
    rw [containsFrom, Bool.or_eq_false_iff] at h1 h2 h3
    rw [encode_cons]
    by_cases hc : c = '.'
    · rw [if_pos hc, decode_token_append, ih h1.2 h2.2 h3.2, hc]
    · rw [if_neg hc]
      have hnp : List.isPrefixOf ['_', '_', 'd', 'o', 't', '_', '_']
          (c :: replaceAllFrom ['.'] ['_', '_', 'd', 'o', 't', '_', '_'] 0 p) = false := by
        by_contra hcon
        rw [Bool.not_eq_false] at hcon
        rcases token_prefix_of_encode c p hcon with h | h | h
        · rw [h1.1] at h; cases h
        · rw [h2.1] at h; cases h
        · rw [h3.1] at h; cases h
      rw [decode_cons_of_no_token _ _ hnp, ih h1.2 h2.2 h3.2]

/-- A text that starts with `__dot__`, `__dot_.` or `__dot.` has an escaped form that starts
with an escape token. -/
theorem encode_token_of_head (q : List Char)
    (h : List.isPrefixOf ['_', '_', 'd', 'o', 't', '_', '_'] q = true ∨
      List.isPrefixOf ['_', '_', 'd', 'o', 't', '_', '.'] q = true ∨
      List.isPrefixOf ['_', '_', 'd', 'o', 't', '.'] q = true) :
    List.isPrefixOf ['_', '_', 'd', 'o', 't', '_', '_']
      (replaceAllFrom ['.'] ['_', '_', 'd', 'o', 't', '_', '_'] 0 q) = true := by
  rcases h with h | h | h
  · obtain ⟨x, rfl⟩ := List.isPrefixOf_iff_prefix.1 h
    simp [encode_cons, List.isPrefixOf]
  · obtain ⟨x, rfl⟩ := List.isPrefixOf_iff_prefix.1 h
    simp [encode_cons, List.isPrefixOf]
  · obtain ⟨x, rfl⟩ := List.isPrefixOf_iff_prefix.1 h
    simp [encode_cons, List.isPrefixOf]

/-- The three excluded substrings are exactly the obstructions: if escaping then unescaping
gives back the text, then none of `__dot__`, `__dot_.` and `__dot.` occurs in it. -/
theorem no_token_of_decode_encode (p : List Char)
    (h : replaceAllFrom ['_', '_', 'd', 'o', 't', '_', '_'] ['.'] 0
      (replaceAllFrom ['.'] ['_', '_', 'd', 'o', 't', '_', '_'] 0 p) = p) :
    containsFrom ['_', '_', 'd', 'o', 't', '_', '_'] p = false ∧
    containsFrom ['_', '_', 'd', 'o', 't', '_', '.'] p = false ∧
    containsFrom ['_', '_', 'd', 'o', 't', '.'] p = false := by
  induction p with
  | nil => simp [containsFrom, List.isPrefixOf]
  | cons c p ih =>
    rw [encode_cons] at h
    by_cases hc : c = '.'
    · rw [if_pos hc, decode_token_append] at h
      obtain ⟨t1, t2, t3⟩ := ih (List.cons.inj h).2
      subst hc
      simp [containsFrom, List.isPrefixOf, t1, t2, t3]
    · rw [if_neg hc] at h
      cases hp : List.isPrefixOf ['_', '_', 'd', 'o', 't', '_', '_']
          (c :: replaceAllFrom ['.'] ['_', '_', 'd', 'o', 't', '_', '_'] 0 p) with
      | false =>
        rw [decode_cons_of_no_token _ _ hp] at h
        obtain ⟨t1, t2, t3⟩ := ih (List.cons.inj h).2
        have hhead :
            (List.isPrefixOf ['_', '_', 'd', 'o', 't', '_', '_'] (c :: p) = true ∨
              List.isPrefixOf ['_', '_', 'd', 'o', 't', '_', '.'] (c :: p) = true ∨
              List.isPrefixOf ['_', '_', 'd', 'o', 't', '.'] (c :: p) = true) → False := by
          intro hx
          have := encode_token_of_head (c :: p) hx
          rw [encode_cons, if_neg hc, hp] at this
          cases this
        have n1 : List.isPrefixOf ['_', '_', 'd', 'o', 't', '_', '_'] (c :: p) = false := by
          by_contra hx
          exact hhead (Or.inl (by simpa using hx))
        have n2 : List.isPrefixOf ['_', '_', 'd', 'o', 't', '_', '.'] (c :: p) = false := by
          by_contra hx
          exact hhead (Or.inr (Or.inl (by simpa using hx)))
        have n3 : List.isPrefixOf ['_', '_', 'd', 'o', 't', '.'] (c :: p) = false := by
          by_contra hx
          exact hhead (Or.inr (Or.inr (by simpa using hx)))
        rw [containsFrom, containsFrom, containsFrom, n1, n2, n3, t1, t2, t3]
        simp
      | true =>
        obtain ⟨x, hx⟩ := List.isPrefixOf_iff_prefix.1 hp
        rw [← hx, decode_token_append] at h
        exact absurd (List.cons.inj h).1.symm hc

/-- Exact domain of the round trip: `DecodeKey (EncodeKey p) = p` holds if and only if none of
`__dot__`, `__dot_.` and `__dot.` occurs in `p`. -/
theorem DecodeKey_EncodeKey_exact (p : String) :
    DecodeKey (EncodeKey p) = p ↔
      (Contains p "__dot__" = false ∧ Contains p "__dot_." = false ∧
        Contains p "__dot." = false) := by
  constructor
  · intro h
    exact no_token_of_decode_encode p.data (congrArg String.data h)
  · rintro ⟨h1, h2, h3⟩
    have key := decode_encode_list p.data h1 h2 h3
    show (⟨replaceAllFrom ['_', '_', 'd', 'o', 't', '_', '_'] ['.'] 0
      (replaceAllFrom ['.'] ['_', '_', 'd', 'o', 't', '_', '_'] 0 p.data)⟩ : String) = p
    rw [key]

/-- C3, as stated, fails: the key `__dot_.` does not contain `__dot__`, yet escaping it and
unescaping the result gives `._dot__`, a different key. -/
theorem DecodeKey_EncodeKey_counterexample :
    Contains "__dot_." "__dot__" = false ∧
    EncodeKey "__dot_." = "__dot___dot__" ∧
    DecodeKey (EncodeKey "__dot_.") = "._dot__" ∧
    DecodeKey (EncodeKey "__dot_.") ≠ "__dot_." := by
  decide

/-- C3, amended: for every key `p` that contains none of the substrings `__dot__`, `__dot_.`
and `__dot.`, `DecodeKey (EncodeKey p) = p`. -/
theorem DecodeKey_EncodeKey_roundtrip (p : String)
    (h1 : Contains p "__dot__" = false) (h2 : Contains p "__dot_." = false)
    (h3 : Contains p "__dot." = false) :
    DecodeKey (EncodeKey p) = p := by
  have key := decode_encode_list p.data h1 h2 h3
  show (⟨replaceAllFrom ['_', '_', 'd', 'o', 't', '_', '_'] ['.'] 0
    (replaceAllFrom ['.'] ['_', '_', 'd', 'o', 't', '_', '_'] 0 p.data)⟩ : String) = p
  rw [key]

/-- Witness for the amended C3 on a key with two dots and an underscore before a dot. -/
theorem DecodeKey_EncodeKey_roundtrip_witness :
    DecodeKey (EncodeKey "pg_.user.config") = "pg_.user.config" :=
  DecodeKey_EncodeKey_roundtrip "pg_.user.config" (by decide) (by decide) (by decide)

/-- C4: for every flattened key `k` without a dot, `EncodeKey (DecodeKey k) = k`, and for every
key `p` the escaped form `EncodeKey p` contains no dot. -/
theorem EncodeKey_DecodeKey_roundtrip :
    (∀ k : String, Contains k "." = false → EncodeKey (DecodeKey k) = k) ∧
    (∀ p : String, Contains (EncodeKey p) "." = false) := by
  constructor
  · intro k hk
    have hk2 : '.' ∉ k.data := (containsFrom_dot k.data).1 hk
    have key := encode_decode_bounded k.data.length k.data (Nat.le_refl _) hk2
    show (⟨replaceAllFrom ['.'] ['_', '_', 'd', 'o', 't', '_', '_'] 0
      (replaceAllFrom ['_', '_', 'd', 'o', 't', '_', '_'] ['.'] 0 k.data)⟩ : String) = k
    rw [key]
  · intro p
    exact (containsFrom_dot _).2 (encode_no_dot p.data)

/-- Witness for C4 on the flattened key `a__dot__b___dot__`. -/
theorem EncodeKey_DecodeKey_roundtrip_witness :
    Contains "a__dot__b___dot__" "." = false ∧
    DecodeKey "a__dot__b___dot__" = "a.b_." ∧
    EncodeKey (DecodeKey "a__dot__b___dot__") = "a__dot__b___dot__" :=
  ⟨by decide, by decide, EncodeKey_DecodeKey_roundtrip.1 "a__dot__b___dot__" (by decide)⟩

/-! ## Theorems about `SlicedString` -/

/-- Storing at the index right after a prefix replaces the element that follows the prefix. -/
theorem set_length_append (pre : List String) (a x : String) (tl : List String) :
    (pre ++ a :: tl).set pre.length x = pre ++ x :: tl := by
  induction pre with
  | nil => simp
  | cons b pre ih => simp [ih]

/-- Loop invariant of `mustStringSlice` on strings: with the slots before index `k` filled
with `pre`, the loop fills the next slots with the remaining elements, in order. -/
theorem mustStringSlice.loop_strings (xs : List String) :
    ∀ pre post : List String,
      mustStringSlice.loop (xs.map Value.str) pre.length
        (pre ++ List.replicate xs.length "" ++ post) = .ok (pre ++ xs ++ post) := by
  induction xs with
  | nil => intro pre post; simp [mustStringSlice.loop]
  | cons x xs ih =>
    intro pre post
    have h := ih (pre ++ [x]) post
    simp only [List.length_append, List.length_singleton, List.append_assoc,
      List.singleton_append] at h
    simp only [List.map_cons, List.length_cons, List.replicate_succ, mustStringSlice.loop,
      List.append_assoc, List.cons_append, set_length_append]
    exact h

/-- The loop of `mustStringSlice` panics when some element is not a string. -/
theorem mustStringSlice.loop_not_string (va : List Value)
    (h : ∃ x ∈ va, ∀ s : String, x ≠ Value.str s) :
    ∀ (k : Nat) (r : List String), mustStringSlice.loop va k r = .error Panic.notAString := by
  induction va with
  | nil => obtain ⟨x, hx, _⟩ := h; exact absurd hx (List.not_mem_nil x)
  | cons v va ih =>
    intro k r
    cases v with
    | str s =>
      have hrest : ∃ x ∈ va, ∀ s : String, x ≠ Value.str s := by
        obtain ⟨x, hx, hns⟩ := h
        rcases List.mem_cons.1 hx with rfl | hx
        · exact absurd rfl (hns s)
        · exact ⟨x, hx, hns⟩
      simpa [mustStringSlice.loop] using ih hrest (k + 1) (r.set k s)
    | null => rfl
    | bool b => rfl
    | int i => rfl
    | float bits => rfl
    | seq ys => rfl
    | map kvs => rfl

/-- A slice in which every element is a string is the image of a list of strings. -/
theorem all_strings_eq_map (va : List Value) (h : ¬ ∃ x ∈ va, ∀ s : String, x ≠ Value.str s) :
    ∃ xs : List String, va = xs.map Value.str := by
  induction va with
  | nil => exact ⟨[], rfl⟩
  | cons v va ih =>
    have hrest : ¬ ∃ x ∈ va, ∀ s : String, x ≠ Value.str s := by
      rintro ⟨x, hx, hns⟩
      exact h ⟨x, List.mem_cons_of_mem v hx, hns⟩
    obtain ⟨xs, hxs⟩ := ih hrest
    have hv : ∃ s : String, v = Value.str s := by
      by_contra hno
      exact h ⟨v, List.mem_cons_self v va, fun s e => hno ⟨s, e⟩⟩
    obtain ⟨s, rfl⟩ := hv
    exact ⟨s :: xs, by simp [hxs]⟩

/-- `SlicedString` on a slice of strings returns those strings. -/
theorem SlicedString_map_str (xs : List String) :
    SlicedString (Value.seq (xs.map Value.str)) = .ok xs := by
  have h := mustStringSlice.loop_strings xs [] []
  simp only [List.length_nil, List.nil_append, List.append_nil] at h
  simpa [SlicedString, mustStringSlice] using h

/-- C5: `SlicedString` of a single string `s` is the one-element list `[s]`; of a sequence
whose elements are all strings it is exactly those strings, in the same order; so `"a"` gives
`["a"]` and `["a", "b"]` gives `["a", "b"]`. -/
theorem SlicedString_returns_strings :
    (∀ s : String, SlicedString (Value.str s) = .ok [s]) ∧
    (∀ xs : List String, SlicedString (Value.seq (xs.map Value.str)) = .ok xs) ∧
    SlicedString (Value.str "a") = .ok ["a"] ∧
    SlicedString (Value.seq [Value.str "a", Value.str "b"]) = .ok ["a", "b"] :=
  ⟨fun _ => rfl, SlicedString_map_str, rfl, rfl⟩

/-- C6: `SlicedString v` panics if and only if `v` is neither a string nor a sequence, or `v`
is a sequence with an element that is not a string; it panics on the number 42 and on a
sequence mixing a string and a number, and returns the empty list on the empty sequence. -/
theorem SlicedString_panics_iff :
    (∀ v : Value, (∃ e, SlicedString v = .error e) ↔
      ((∀ s : String, v ≠ Value.str s) ∧ (∀ xs : List Value, v ≠ Value.seq xs)) ∨
      (∃ xs : List Value, v = Value.seq xs ∧ ∃ x ∈ xs, ∀ s : String, x ≠ Value.str s)) ∧
    SlicedString (Value.int 42) = .error Panic.notAStringOrSlice ∧
    SlicedString (Value.seq [Value.str "a", Value.int 42]) = .error Panic.notAString ∧
    SlicedString (Value.seq []) = .ok [] := by
  refine ⟨fun v => ?_, rfl, rfl, rfl⟩
  cases v with
  | str s =>
    constructor
    · rintro ⟨e, he⟩; cases he
    · rintro (⟨h, _⟩ | ⟨xs, h, _⟩)
      · exact absurd rfl (h s)
      · cases h
  | seq va =>
    constructor
    · rintro ⟨e, he⟩
      right
      refine ⟨va, rfl, ?_⟩
      by_contra hno
      obtain ⟨xs, rfl⟩ := all_strings_eq_map va hno
      rw [SlicedString_map_str] at he
      cases he
    · rintro (⟨_, h⟩ | ⟨xs, h, hx⟩)
      · exact absurd rfl (h va)
      · cases h
        exact ⟨Panic.notAString, by
          simpa [SlicedString, mustStringSlice] using
            mustStringSlice.loop_not_string va hx 0 (List.replicate va.length "")⟩
  | null => exact ⟨fun _ => Or.inl ⟨fun _ => nofun, fun _ => nofun⟩, fun _ => ⟨_, rfl⟩⟩
  | bool b => exact ⟨fun _ => Or.inl ⟨fun _ => nofun, fun _ => nofun⟩, fun _ => ⟨_, rfl⟩⟩
  | int i => exact ⟨fun _ => Or.inl ⟨fun _ => nofun, fun _ => nofun⟩, fun _ => ⟨_, rfl⟩⟩
  | float bits => exact ⟨fun _ => Or.inl ⟨fun _ => nofun, fun _ => nofun⟩, fun _ => ⟨_, rfl⟩⟩
  | map kvs => exact ⟨fun _ => Or.inl ⟨fun _ => nofun, fun _ => nofun⟩, fun _ => ⟨_, rfl⟩⟩

/-! ## Theorems about `descriptionForProperty` -/

/-- C7: whenever `descriptionForProperty` returns, the label is `"Deprecated"` if and only if
the descriptor has a string `description` whose lower-cased form contains `"deprecated"`, and
otherwise the label is `"Description"`; whenever a string `description` is present the
function returns and the text is that description unchanged, whatever the title. -/
theorem descriptionForProperty_label (caseTable : Char → Char) (p : List (String × Value)) :
    (∀ d : String, p.lookup "description" = some (Value.str d) →
      ∃ k, descriptionForProperty caseTable p = .ok (k, d)) ∧
    (∀ k text : String, descriptionForProperty caseTable p = .ok (k, text) →
      (k = "Deprecated" ↔ ∃ d : String, p.lookup "description" = some (Value.str d) ∧
        Contains (ToLower caseTable d) "deprecated" = true) ∧
      (k ≠ "Deprecated" → k = "Description") ∧
      (∀ d : String, p.lookup "description" = some (Value.str d) → text = d)) := by
  constructor
  · intro d hd
    by_cases hc : Contains (ToLower caseTable d) "deprecated" = true
    · exact ⟨"Deprecated", by simp [descriptionForProperty, hd, hc]⟩
    · exact ⟨"Description", by simp [descriptionForProperty, hd, hc]⟩
  · intro k text h
    unfold descriptionForProperty at h
    split at h
    · rename_i d hd
      by_cases hc : Contains (ToLower caseTable d) "deprecated" = true
      · rw [if_pos hc] at h
        injection h with h
        injection h with hk ht
        subst hk; subst ht
        refine ⟨⟨fun _ => ⟨d, hd, hc⟩, fun _ => rfl⟩, fun hne => absurd rfl hne, ?_⟩
        intro d2 hd2
        rw [hd] at hd2
        injection hd2 with hd2
        injection hd2
      · rw [if_neg hc] at h
        injection h with h
        injection h with hk ht
        subst hk; subst ht
        refine ⟨⟨fun e => absurd e (by decide), ?_⟩, fun _ => rfl, ?_⟩
        · rintro ⟨d2, hd2, hc2⟩
          rw [hd] at hd2
          injection hd2 with hd2
          injection hd2 with hd2
          subst hd2
          exact absurd hc2 hc
        · intro d2 hd2
          rw [hd] at hd2
          injection hd2 with hd2
          injection hd2
    · rename_i hnd
      split at h
      · injection h with h
        injection h with hk ht
        subst hk
        refine ⟨⟨fun e => absurd e (by decide), ?_⟩, fun _ => rfl, ?_⟩
        · rintro ⟨d2, hd2, _⟩
          exact absurd hd2 (hnd d2)
        · intro d2 hd2
          exact absurd hd2 (hnd d2)
      · cases h

/-- Witness for C7: a descriptor with both a deprecated description and a title, and one with
an ordinary description. -/
theorem descriptionForProperty_label_witness :
    descriptionForProperty id
        [("title", Value.str "T"), ("description", Value.str "This is Deprecated now")] =
      .ok ("Deprecated", "This is Deprecated now") ∧
    (∃ d : String,
      List.lookup "description"
        [("title", Value.str "T"), ("description", Value.str "This is Deprecated now")] =
          some (Value.str d) ∧
      Contains (ToLower id d) "deprecated" = true) ∧
    descriptionForProperty id [("description", Value.str "normal text")] =
      .ok ("Description", "normal text") :=
  ⟨rfl,
   ((descriptionForProperty_label id
      [("title", Value.str "T"), ("description", Value.str "This is Deprecated now")]).2
      "Deprecated" "This is Deprecated now" rfl).1.1 rfl,
   rfl⟩

/-- C8: when the descriptor has no string `description`, `descriptionForProperty` returns
`("Description", title)` if `title` is a string, even a title containing "deprecated"; and it
panics if and only if neither `description` nor `title` is present as a string. -/
theorem descriptionForProperty_title_fallback (caseTable : Char → Char) :
    (∀ (p : List (String × Value)) (t : String),
      (∀ d : String, p.lookup "description" ≠ some (Value.str d)) →
      p.lookup "title" = some (Value.str t) →
      descriptionForProperty caseTable p = .ok ("Description", t)) ∧
    (∀ p : List (String × Value), (∃ e, descriptionForProperty caseTable p = .error e) ↔
      (∀ d : String, p.lookup "description" ≠ some (Value.str d)) ∧
      (∀ t : String, p.lookup "title" ≠ some (Value.str t))) ∧
    descriptionForProperty caseTable [("title", Value.str "T")] = .ok ("Description", "T") ∧
    descriptionForProperty caseTable [("title", Value.str "deprecated option")] =
      .ok ("Description", "deprecated option") := by
  refine ⟨?_, ?_, rfl, rfl⟩
  · intro p t hnd ht
    unfold descriptionForProperty
    split
    · rename_i d hd
      exact absurd hd (hnd d)
    · simp [ht]
  · intro p
    unfold descriptionForProperty
    split
    · rename_i d hd
      constructor
      · rintro ⟨e, he⟩
        split at he <;> cases he
      · rintro ⟨hnd, _⟩
        exact absurd hd (hnd d)
    · rename_i hnd
      split
      · rename_i t ht
        constructor
        · rintro ⟨e, he⟩
          cases he
        · rintro ⟨_, hnt⟩
          exact absurd ht (hnt t)
      · rename_i hnt
        exact ⟨fun _ => ⟨hnd, hnt⟩, fun _ => ⟨_, rfl⟩⟩

/-- Witness for C8: a descriptor whose description is not a string and whose title is, and a
descriptor with neither. -/
theorem descriptionForProperty_title_fallback_witness :
    descriptionForProperty id [("description", Value.int 7), ("title", Value.str "T")] =
      .ok ("Description", "T") ∧
    (∃ e, descriptionForProperty id [("type", Value.str "string")] = .error e) :=
  ⟨(descriptionForProperty_title_fallback id).1
      [("description", Value.int 7), ("title", Value.str "T")] "T"
      (fun d h => by simp [List.lookup] at h) rfl,
   ((descriptionForProperty_title_fallback id).2.1 [("type", Value.str "string")]).2
      ⟨fun d h => by simp [List.lookup] at h, fun t h => by simp [List.lookup] at h⟩⟩

/-! ## Theorems about the cache -/

/-- Reading a key right after assigning it gives the assigned value. -/
theorem Cache.lookup_set_self (cache : Cache) (st : SchemaType) (m : RepresentationMap) :
    List.lookup st (cache.set st m) = some m := by
  simp [Cache.set, List.lookup]

/-- Entries under keys different from `st` pass the filter that removes the entry of `st`. -/
theorem Cache.lookup_filter_ne (cache : Cache) (st st2 : SchemaType) (h : st ≠ st2) :
    List.lookup st (cache.filter (fun e => e.1 != st2)) = List.lookup st cache := by
  induction cache with
  | nil => rfl
  | cons e cache ih =>
    obtain ⟨k, v⟩ := e
    by_cases hk : k = st2
    · subst hk
      have hne : (st == k) = false := by simpa using h
      simp [List.filter, List.lookup, hne, ih]
    · have hk2 : (k != st2) = true := by simpa using hk
      simp only [List.filter, hk2, List.lookup]
      cases hsk : st == k <;> simp [ih]

/-- Assigning a key leaves the entries under the other keys as they were. -/
theorem Cache.lookup_set_ne (cache : Cache) (st st2 : SchemaType) (m : RepresentationMap)
    (h : st ≠ st2) : List.lookup st (cache.set st2 m) = List.lookup st cache := by
  have hne : (st == st2) = false := by simpa using h
  simp [Cache.set, List.lookup, hne, Cache.lookup_filter_ne cache st st2 h]

/-- After `representationToMap`, an entry that was present under a key different from the one
being populated is still there; under the populated key the entry is the returned map. -/
theorem representationToMap_cache (unmarshal : List Nat → Except String RepresentationMap)
    (st : SchemaType) (r : List Nat) (cache : Cache) :
    (∀ st2, st2 ≠ st → List.lookup st2 (representationToMap unmarshal st r cache).2 =
      List.lookup st2 cache) ∧
    (∀ m, (representationToMap unmarshal st r cache).1 = .ok m →
      List.lookup st (representationToMap unmarshal st r cache).2 = some m) ∧
    (∀ e, (representationToMap unmarshal st r cache).1 = .error e →
      (representationToMap unmarshal st r cache).2 = cache) := by
  unfold representationToMap
  cases unmarshal r with
  | error err =>
    refine ⟨fun _ _ => rfl, fun _ h => ?_, fun _ _ => rfl⟩
    cases h
  | ok m =>
    refine ⟨fun st2 h => Cache.lookup_set_ne cache st2 st m h, fun m2 h => ?_, fun _ h => ?_⟩
    · cases h
      exact Cache.lookup_set_self cache st m
    · cases h

/-- A call for a valid category that is already in the cache returns the stored entry and
leaves the cache as it is; the decoder is not consulted. -/
theorem CachedRepresentationMap_hit (unmarshal : List Nat → Except String RepresentationMap)
    (dist : Dist) (st : SchemaType) (cache : Cache) (m : RepresentationMap)
    (hst : st = ServiceTypes ∨ st = IntegrationTypes ∨ st = IntegrationEndpointTypes)
    (hm : List.lookup st cache = some m) :
    CachedRepresentationMap unmarshal dist st cache = (.ok m, cache) := by
  unfold CachedRepresentationMap
  rw [if_neg (not_not.2 hst)]
  simp [hm]

/-- A call for a valid category that is not in the cache decodes one embedded document: a
decoding error becomes a panic with the cache untouched, and a decoded map is stored under
the category and returned. -/
theorem CachedRepresentationMap_miss (unmarshal : List Nat → Except String RepresentationMap)
    (dist : Dist) (st : SchemaType) (cache : Cache)
    (hst : st = ServiceTypes ∨ st = IntegrationTypes ∨ st = IntegrationEndpointTypes)
    (hm : List.lookup st cache = none) :
    ∃ r : List Nat,
      (∀ err, unmarshal r = .error err →
        CachedRepresentationMap unmarshal dist st cache = (.error (Panic.yamlError err), cache)) ∧
      (∀ m, unmarshal r = .ok m →
        CachedRepresentationMap unmarshal dist st cache = (.ok m, cache.set st m)) := by
  rcases hst with h | h | h
  · subst h
    refine ⟨dist.ServiceTypes, fun err he => ?_, fun m he => ?_⟩ <;>
      simp [CachedRepresentationMap, hm, representationToMap, he, Cache.lookup_set_self]
  · subst h
    have hm1 : List.lookup 1 cache = none := hm
    refine ⟨dist.IntegrationTypes, fun err he => ?_, fun m he => ?_⟩ <;>
      simp [CachedRepresentationMap, hm1, representationToMap, he, Cache.lookup_set_self,
        ServiceTypes, IntegrationTypes]
  · subst h
    have hm2 : List.lookup 2 cache = none := hm
    refine ⟨dist.IntegrationEndpointTypes, fun err he => ?_, fun m he => ?_⟩ <;>
      simp [CachedRepresentationMap, hm2, representationToMap, he, Cache.lookup_set_self,
        ServiceTypes, IntegrationTypes, IntegrationEndpointTypes]

/-- A call for a value outside the enumeration panics and leaves the cache as it is. -/
theorem CachedRepresentationMap_invalid (unmarshal : List Nat → Except String RepresentationMap)
    (dist : Dist) (st : SchemaType) (cache : Cache)
    (hst : ¬ (st = ServiceTypes ∨ st = IntegrationTypes ∨ st = IntegrationEndpointTypes)) :
    CachedRepresentationMap unmarshal dist st cache =
      (.error (Panic.unknownSchemaType st), cache) := by
  unfold CachedRepresentationMap
  rw [if_pos hst]

/-- After a call that returns a map, the cache holds exactly that map under the category. -/
theorem CachedRepresentationMap_ok_stored (unmarshal : List Nat → Except String RepresentationMap)
    (dist : Dist) (st : SchemaType) (cache cache1 : Cache) (m : RepresentationMap)
    (h : CachedRepresentationMap unmarshal dist st cache = (.ok m, cache1)) :
    (st = ServiceTypes ∨ st = IntegrationTypes ∨ st = IntegrationEndpointTypes) ∧
      List.lookup st cache1 = some m := by
  by_cases hst : st = ServiceTypes ∨ st = IntegrationTypes ∨ st = IntegrationEndpointTypes
  · refine ⟨hst, ?_⟩
    cases hm : List.lookup st cache with
    | some m0 =>
      rw [CachedRepresentationMap_hit unmarshal dist st cache m0 hst hm] at h
      cases h
      exact hm
    | none =>
      obtain ⟨r, herr, hok⟩ := CachedRepresentationMap_miss unmarshal dist st cache hst hm
      cases hu : unmarshal r with
      | error err => rw [herr err hu] at h; cases h
      | ok m1 =>
        rw [hok m1 hu] at h
        cases h
        exact Cache.lookup_set_self _ _ _
  · rw [CachedRepresentationMap_invalid unmarshal dist st cache hst] at h
    cases h

/-- No call, for any category and whatever its outcome, changes an entry already stored. -/
theorem CachedRepresentationMap_preserves (unmarshal : List Nat → Except String RepresentationMap)
    (dist : Dist) (st st2 : SchemaType) (cache : Cache) (m : RepresentationMap)
    (hm : List.lookup st cache = some m) :
    List.lookup st (CachedRepresentationMap unmarshal dist st2 cache).2 = some m := by
  by_cases hst : st2 = ServiceTypes ∨ st2 = IntegrationTypes ∨ st2 = IntegrationEndpointTypes
  · cases hm2 : List.lookup st2 cache with
    | some m0 =>
      rw [CachedRepresentationMap_hit unmarshal dist st2 cache m0 hst hm2]
      exact hm
    | none =>
      have hne : st ≠ st2 := by
        intro e
        rw [e, hm2] at hm
        cases hm
      obtain ⟨r, herr, hok⟩ := CachedRepresentationMap_miss unmarshal dist st2 cache hst hm2
      cases hu : unmarshal r with
      | error err => rw [herr err hu]; exact hm
      | ok m1 =>
        rw [hok m1 hu]
        show List.lookup st (cache.set st2 m1) = some m
        rw [Cache.lookup_set_ne cache st st2 m1 hne, hm]
  · rw [CachedRepresentationMap_invalid unmarshal dist st2 cache hst]
    exact hm

/-- C9: with the cache as explicit state, a call for a valid category that the cache already
holds returns exactly the stored entry, whatever the decoder and the embedded documents are,
and leaves the whole cache unchanged; hence after a call that returned a map, a second call
for the same category returns the same map with the same cache; and no call changes an entry
that is already stored. -/
theorem CachedRepresentationMap_returns_cached :
    (∀ (unmarshal : List Nat → Except String RepresentationMap) (dist : Dist)
        (st : SchemaType) (cache : Cache) (m : RepresentationMap),
      (st = ServiceTypes ∨ st = IntegrationTypes ∨ st = IntegrationEndpointTypes) →
      List.lookup st cache = some m →
      CachedRepresentationMap unmarshal dist st cache = (.ok m, cache)) ∧
    (∀ (unmarshal : List Nat → Except String RepresentationMap) (dist : Dist)
        (st : SchemaType) (cache cache1 : Cache) (m : RepresentationMap),
      CachedRepresentationMap unmarshal dist st cache = (.ok m, cache1) →
      ∀ (unmarshal2 : List Nat → Except String RepresentationMap) (dist2 : Dist),
        CachedRepresentationMap unmarshal2 dist2 st cache1 = (.ok m, cache1)) ∧
    (∀ (unmarshal : List Nat → Except String RepresentationMap) (dist : Dist)
        (st st2 : SchemaType) (cache : Cache) (m : RepresentationMap),
      List.lookup st cache = some m →
      List.lookup st (CachedRepresentationMap unmarshal dist st2 cache).2 = some m) := by
  refine ⟨CachedRepresentationMap_hit, ?_, CachedRepresentationMap_preserves⟩
  intro unmarshal dist st cache cache1 m h unmarshal2 dist2
  obtain ⟨hst, hm⟩ := CachedRepresentationMap_ok_stored unmarshal dist st cache cache1 m h
  exact CachedRepresentationMap_hit unmarshal2 dist2 st cache1 m hst hm

/-- Witness for C9: the first call on the empty cache decodes and stores a map; the second
call, given a decoder that always fails, still returns that map and the same cache. -/
theorem CachedRepresentationMap_returns_cached_witness :
    CachedRepresentationMap (fun _ => .ok [("pg", Value.map [])]) ⟨[1], [2], [3]⟩
        IntegrationTypes [] =
      (.ok [("pg", Value.map [])], [(IntegrationTypes, [("pg", Value.map [])])]) ∧
    CachedRepresentationMap (fun _ => .error "unused") ⟨[], [], []⟩ IntegrationTypes
        [(IntegrationTypes, [("pg", Value.map [])])] =
      (.ok [("pg", Value.map [])], [(IntegrationTypes, [("pg", Value.map [])])]) :=
  ⟨rfl,
   CachedRepresentationMap_returns_cached.2.1 (fun _ => .ok [("pg", Value.map [])])
     ⟨[1], [2], [3]⟩ IntegrationTypes [] [(IntegrationTypes, [("pg", Value.map [])])]
     [("pg", Value.map [])] rfl (fun _ => .error "unused") ⟨[], [], []⟩⟩

/-- C10: for every `SchemaType` value other than `ServiceTypes` (0), `IntegrationTypes` (1)
and `IntegrationEndpointTypes` (2), `CachedRepresentationMap` panics and leaves the cache
unchanged: nothing is decoded or stored before the failure. -/
theorem CachedRepresentationMap_unknown_panics
    (unmarshal : List Nat → Except String RepresentationMap) (dist : Dist)
    (st : SchemaType) (cache : Cache)
    (h0 : st ≠ 0) (h1 : st ≠ 1) (h2 : st ≠ 2) :
    ServiceTypes = 0 ∧ IntegrationTypes = 1 ∧ IntegrationEndpointTypes = 2 ∧
    CachedRepresentationMap unmarshal dist st cache =
      (.error (Panic.unknownSchemaType st), cache) := by
  refine ⟨rfl, rfl, rfl, CachedRepresentationMap_invalid unmarshal dist st cache ?_⟩
  rintro (h | h | h)
  · exact h0 h
  · exact h1 h
  · exact h2 h

/-- Witness for C10 at the value 3, on a cache that holds an entry, with a decoder that would
succeed. -/
theorem CachedRepresentationMap_unknown_panics_witness :
    ServiceTypes = 0 ∧ IntegrationTypes = 1 ∧ IntegrationEndpointTypes = 2 ∧
    CachedRepresentationMap (fun _ => .ok []) ⟨[], [], []⟩ 3 [(ServiceTypes, [])] =
      (.error (Panic.unknownSchemaType 3), [(ServiceTypes, [])]) :=
  CachedRepresentationMap_unknown_panics (fun _ => .ok []) ⟨[], [], []⟩ 3 [(ServiceTypes, [])]
    (by decide) (by decide) (by decide)

/-! ## Theorems about `isTerraformTypePrimitive` -/

/-- A call of `TerraformTypes` that returns has read only known names, and its two results
are related position by position by the projection. -/
theorem TerraformTypes_ok_projects (t r ar : List String)
    (h : TerraformTypes t = .ok (r, ar)) : List.Forall₂ Projects ar r := by
  have hall : ∀ v ∈ t, v ∈ knownTypeNames := by
    intro v hv
    by_contra hk
    obtain ⟨w, _, _, he⟩ := TerraformTypes.loop_unknown t ⟨v, hv, hk⟩ [] []
    rw [TerraformTypes, he] at h
    cases h
  obtain ⟨r1, ar1, h1, _, h3⟩ := TerraformTypes.loop_known t hall [] []
  rw [TerraformTypes, h1] at h
  simp only [List.nil_append] at h
  cases h
  exact h3

/-- A projected name is not primitive exactly when it comes from `array` or `object`. -/
theorem not_primitive_of_projects (a c : String) (h : Projects a c) :
    isTerraformTypePrimitive c = false ↔ (a = "array" ∨ a = "object") := by
  rcases h with ⟨ha, hc⟩ | ⟨ha, hc⟩ | ⟨ha, hc⟩ | ⟨ha, hc⟩ | ⟨ha, hc⟩ | ⟨ha, hc⟩ <;>
    subst ha <;> subst hc <;> decide

/-- C11: `isTerraformTypePrimitive t` is true exactly when `t` is one of `TypeBool`, `TypeInt`,
`TypeFloat`, `TypeString`; so for every input on which `TerraformTypes` returns `(r, ar)` and
every position `i`, `isTerraformTypePrimitive r[i]` is false if and only if `ar[i]` is `array`
or `object`. -/
theorem isTerraformTypePrimitive_exact :
    (∀ t : String, isTerraformTypePrimitive t = true ↔
      (t = "TypeBool" ∨ t = "TypeInt" ∨ t = "TypeFloat" ∨ t = "TypeString")) ∧
    (∀ (t r ar : List String), TerraformTypes t = .ok (r, ar) →
      ∀ (i : Nat) (hr : i < r.length) (ha : i < ar.length),
        isTerraformTypePrimitive r[i] = false ↔ (ar[i] = "array" ∨ ar[i] = "object")) := by
  constructor
  · intro t
    unfold isTerraformTypePrimitive
    by_cases h : t = "TypeBool" ∨ t = "TypeInt" ∨ t = "TypeFloat" ∨ t = "TypeString"
    · simp [h]
    · simp [h]
  · intro t r ar h i hr ha
    have h3 := TerraformTypes_ok_projects t r ar h
    exact not_primitive_of_projects _ _ (List.Forall₂.get h3 ha hr)

/-- Witness for C11 on the input `["string", "null", "array"]`, at the position of `array`. -/
theorem isTerraformTypePrimitive_exact_witness :
    TerraformTypes ["string", "null", "array"] = .ok (["TypeString", "TypeList"], ["string", "array"]) ∧
    (isTerraformTypePrimitive "TypeList" = false ↔ ("array" = "array" ∨ "array" = "object")) :=
  ⟨rfl,
   isTerraformTypePrimitive_exact.2 ["string", "null", "array"] ["TypeString", "TypeList"]
     ["string", "array"] rfl 1 (by decide) (by decide)⟩

end Userconfig

namespace Vpc

open Userconfig

/-! ## Theorems about `strings.Split` on `"/"` -/

/-- One step of the scan that splits on `"/"`. -/
theorem splitFrom_slash_cons (cur : List Char) (c : Char) (s : List Char) :
    splitFrom ['/'] 0 cur (c :: s) =
      if c = '/' then ⟨cur⟩ :: splitFrom ['/'] 0 [] s
      else splitFrom ['/'] 0 (cur ++ [c]) s := by
  by_cases h : c = '/'
  · subst h; simp [splitFrom, List.isPrefixOf]
  · have h2 : ¬ '/' = c := fun e => h e.symm
    simp [splitFrom, List.isPrefixOf, h, h2]

/-- Splitting on `"/"` gives one chunk more than the text has slashes. -/
theorem splitFrom_slash_length (s : List Char) :
    ∀ cur : List Char, (splitFrom ['/'] 0 cur s).length = s.count '/' + 1 := by
  induction s with
  | nil => intro cur; simp [splitFrom]
  | cons c s ih =>
    intro cur
    rw [splitFrom_slash_cons]
    by_cases h : c = '/'
    · subst h; simp [ih]
    · have h2 : ¬ '/' = c := fun e => h e.symm
      rw [if_neg h, ih, List.count_cons_of_ne h2]

/-- The number of chunks of `Split v "/"` is the number of slashes of `v` plus one. -/
theorem Split_slash_length (v : String) : (Split v "/").length = v.data.count '/' + 1 :=
  splitFrom_slash_length v.data []

/-! ## Theorems about `validateVPCID` and `OptionalStringPointer` -/

/-- C12: `validateVPCID i k` reports an error if and only if `i` is not a string or the string
does not split on `"/"` into exactly two chunks, that is, does not contain exactly one `"/"`;
it reports at most one error and never a warning, and it accepts `"/"`, whose project and VPC
parts are both empty. -/
theorem validateVPCID_errors_iff :
    (∀ (i : Value) (k : String), (validateVPCID i k).2 ≠ [] ↔
      ((∀ v : String, i ≠ Value.str v) ∨
        ∃ v : String, i = Value.str v ∧ (Split v "/").length ≠ 2)) ∧
    (∀ v : String, (Split v "/").length = 2 ↔ v.data.count '/' = 1) ∧
    (∀ (i : Value) (k : String),
      (validateVPCID i k).2.length ≤ 1 ∧ (validateVPCID i k).1 = []) ∧
    (∀ k : String, validateVPCID (Value.str "/") k = ([], [])) ∧
    Split "/" "/" = ["", ""] := by
  refine ⟨fun i k => ?_, fun v => ?_, fun i k => ?_, fun k => rfl, by decide⟩
  · cases i with
    | str v =>
      by_cases h : (Split v "/").length ≠ 2
      · simp only [validateVPCID, if_pos h]
        exact ⟨fun _ => Or.inr ⟨v, rfl, h⟩, fun _ => by simp⟩
      · simp only [validateVPCID, if_neg h]
        constructor
        · intro hne; exact absurd rfl hne
        · rintro (hns | ⟨w, hw, hlen⟩)
          · exact absurd rfl (hns v)
          · cases hw
            exact absurd hlen h
    | null => exact ⟨fun _ => Or.inl (fun _ => nofun), fun _ => by simp [validateVPCID]⟩
    | bool b => exact ⟨fun _ => Or.inl (fun _ => nofun), fun _ => by simp [validateVPCID]⟩
    | int n => exact ⟨fun _ => Or.inl (fun _ => nofun), fun _ => by simp [validateVPCID]⟩
    | float bits => exact ⟨fun _ => Or.inl (fun _ => nofun), fun _ => by simp [validateVPCID]⟩
    | seq xs => exact ⟨fun _ => Or.inl (fun _ => nofun), fun _ => by simp [validateVPCID]⟩
    | map kvs => exact ⟨fun _ => Or.inl (fun _ => nofun), fun _ => by simp [validateVPCID]⟩
  · rw [Split_slash_length]
    omega
  · cases i with
    | str v =>
      by_cases h : (Split v "/").length ≠ 2
      · simp [validateVPCID, h]
      · simp only [validateVPCID, if_neg h]
        simp
    | null => simp [validateVPCID]
    | bool b => simp [validateVPCID]
    | int n => simp [validateVPCID]
    | float bits => simp [validateVPCID]
    | seq xs => simp [validateVPCID]
    | map kvs => simp [validateVPCID]

/-- C13: `OptionalStringPointer s` is nil if and only if `s` is the empty string, and for
every non-empty `s` it is a pointer whose target equals `s`. -/
theorem OptionalStringPointer_nil_iff :
    (∀ s : String, OptionalStringPointer s = none ↔ s = "") ∧
    (∀ s : String, s ≠ "" → OptionalStringPointer s = some s) := by
  constructor
  · intro s
    unfold OptionalStringPointer
    by_cases h : s = ""
    · simp [h]
    · simp [h]
  · intro s h
    unfold OptionalStringPointer
    rw [if_neg h]

/-- Witness for C13 on the resource group name `"rg"`. -/
theorem OptionalStringPointer_nil_iff_witness :
    OptionalStringPointer "" = none ∧ OptionalStringPointer "rg" = some "rg" :=
  ⟨(OptionalStringPointer_nil_iff.1 "").2 rfl, OptionalStringPointer_nil_iff.2 "rg" (by decide)⟩

/-! ## Theorems about the parser of resource ids -/

/-- A wrong number of chunks is reported as an error, before any chunk is read. -/
theorem parsePeerVPCIDSized_mismatch (src : String) (size : Int)
    (h : ((Split src "/").length : Int) ≠ size) :
    parsePeerVPCIDSized src size =
      some (.error ("expected unix path-like string with " ++ toString size ++ " chunks")) := by
  unfold parsePeerVPCIDSized
  simp only [if_pos h]

/-- Four chunks parsed with size four. -/
theorem parsePeerVPCIDSized_four (src c0 c1 c2 c3 : String)
    (h : Split src "/" = [c0, c1, c2, c3]) :
    parsePeerVPCIDSized src 4 = some (.ok ⟨c0, c1, c2, c3, none⟩) := by
  unfold parsePeerVPCIDSized
  simp [h, peeringVPCIDSizeWithRegion]

/-- Five chunks parsed with size five. -/
theorem parsePeerVPCIDSized_five (src c0 c1 c2 c3 c4 : String)
    (h : Split src "/" = [c0, c1, c2, c3, c4]) :
    parsePeerVPCIDSized src 5 = some (.ok ⟨c0, c1, c2, c3, some c4⟩) := by
  unfold parsePeerVPCIDSized
  simp [h, peeringVPCIDSizeWithRegion]

/-- A list of length four is made of four elements. -/
theorem list_of_length_four (l : List String) (h : l.length = 4) :
    ∃ c0 c1 c2 c3, l = [c0, c1, c2, c3] := by
  match l, h with
  | [c0, c1, c2, c3], _ => exact ⟨c0, c1, c2, c3, rfl⟩

/-- A list of length five is made of five elements. -/
theorem list_of_length_five (l : List String) (h : l.length = 5) :
    ∃ c0 c1 c2 c3 c4, l = [c0, c1, c2, c3, c4] := by
  match l, h with
  | [c0, c1, c2, c3, c4], _ => exact ⟨c0, c1, c2, c3, c4, rfl⟩

/-- C14: for `size` 4 or 5 and every `src`, `parsePeerVPCIDSized src size` returns an error if
and only if splitting `src` on `"/"` does not give exactly `size` chunks; on success the
fields `projectName`, `vpcID`, `peerCloudAccount`, `peerVPC` are the chunks 0 to 3 in order,
`peerRegion` is nil for size 4 and chunk 4 for size 5; no index is out of range. -/
theorem parsePeerVPCIDSized_chunks (src : String) (size : Int) (hsize : size = 4 ∨ size = 5) :
    ((∃ msg, parsePeerVPCIDSized src size = some (.error msg)) ↔
      ((Split src "/").length : Int) ≠ size) ∧
    (size = 4 → (Split src "/").length = 4 →
      ∃ c0 c1 c2 c3, Split src "/" = [c0, c1, c2, c3] ∧
        parsePeerVPCIDSized src size = some (.ok ⟨c0, c1, c2, c3, none⟩)) ∧
    (size = 5 → (Split src "/").length = 5 →
      ∃ c0 c1 c2 c3 c4, Split src "/" = [c0, c1, c2, c3, c4] ∧
        parsePeerVPCIDSized src size = some (.ok ⟨c0, c1, c2, c3, some c4⟩)) ∧
    parsePeerVPCIDSized src size ≠ none := by
  have h4 : size = 4 → (Split src "/").length = 4 →
      ∃ c0 c1 c2 c3, Split src "/" = [c0, c1, c2, c3] ∧
        parsePeerVPCIDSized src size = some (.ok ⟨c0, c1, c2, c3, none⟩) := by
    intro hs hl
    obtain ⟨c0, c1, c2, c3, hc⟩ := list_of_length_four _ hl
    exact ⟨c0, c1, c2, c3, hc, by rw [hs]; exact parsePeerVPCIDSized_four src c0 c1 c2 c3 hc⟩
  have h5 : size = 5 → (Split src "/").length = 5 →
      ∃ c0 c1 c2 c3 c4, Split src "/" = [c0, c1, c2, c3, c4] ∧
        parsePeerVPCIDSized src size = some (.ok ⟨c0, c1, c2, c3, some c4⟩) := by
    intro hs hl
    obtain ⟨c0, c1, c2, c3, c4, hc⟩ := list_of_length_five _ hl
    exact ⟨c0, c1, c2, c3, c4, hc, by rw [hs]; exact parsePeerVPCIDSized_five src c0 c1 c2 c3 c4 hc⟩
  have hok : ((Split src "/").length : Int) = size →
      ∃ p, parsePeerVPCIDSized src size = some (.ok p) := by
    intro hl
    rcases hsize with hs | hs
    · obtain ⟨c0, c1, c2, c3, _, hp⟩ := h4 hs (by omega)
      exact ⟨_, hp⟩
    · obtain ⟨c0, c1, c2, c3, c4, _, hp⟩ := h5 hs (by omega)
      exact ⟨_, hp⟩
  refine ⟨⟨?_, fun h => ⟨_, parsePeerVPCIDSized_mismatch src size h⟩⟩, h4, h5, ?_⟩
  · rintro ⟨msg, hmsg⟩ hl
    obtain ⟨p, hp⟩ := hok hl
    rw [hp] at hmsg
    cases hmsg
  · by_cases hl : ((Split src "/").length : Int) = size
    · obtain ⟨p, hp⟩ := hok hl
      rw [hp]
      exact nofun
    · rw [parsePeerVPCIDSized_mismatch src size hl]
      exact nofun

/-- Witness for C14: five chunks with size 5, four empty chunks with size 4, and three or
five chunks rejected with size 4. -/
theorem parsePeerVPCIDSized_chunks_witness :
    (∃ c0 c1 c2 c3 c4, Split "prj/vpc/acc/peer/eu" "/" = [c0, c1, c2, c3, c4] ∧
      parsePeerVPCIDSized "prj/vpc/acc/peer/eu" 5 = some (.ok ⟨c0, c1, c2, c3, some c4⟩)) ∧
    parsePeerVPCIDSized "prj/vpc/acc/peer/eu" 5 =
      some (.ok ⟨"prj", "vpc", "acc", "peer", some "eu"⟩) ∧
    parsePeerVPCIDSized "///" 4 = some (.ok ⟨"", "", "", "", none⟩) ∧
    parsePeerVPCIDSized "a/b/c" 4 =
      some (.error "expected unix path-like string with 4 chunks") ∧
    parsePeerVPCIDSized "a/b/c/d/e" 4 =
      some (.error "expected unix path-like string with 4 chunks") :=
  ⟨(parsePeerVPCIDSized_chunks "prj/vpc/acc/peer/eu" 5 (Or.inr rfl)).2.2.1 rfl (by decide),
   rfl, rfl, rfl, rfl⟩

/-- C15: `parsePeerVPCID`, the parser used by read, delete, import and the Azure check,
returns an error for every id made of five chunks joined by `"/"`, the form
`project/vpc/account/peerVPC/region` that create sets as the id when `peer_region` is not
empty; and whenever it succeeds the parsed `peerRegion` is nil. -/
theorem parsePeerVPCID_rejects_region :
    (∀ a b c d e : String,
      parsePeerVPCID (a ++ "/" ++ b ++ "/" ++ c ++ "/" ++ d ++ "/" ++ e) =
        some (.error "expected unix path-like string with 4 chunks")) ∧
    (∀ (src : String) (p : peeringVPCID),
      parsePeerVPCID src = some (.ok p) → p.peerRegion = none) := by
  constructor
  · intro a b c d e
    have hslash : ("/" : String).data = ['/'] := rfl
    have hlen : ((Split (a ++ "/" ++ b ++ "/" ++ c ++ "/" ++ d ++ "/" ++ e) "/").length : Int)
        ≠ 4 := by
      rw [Split_slash_length]
      simp only [String.data_append, List.count_append, hslash, List.count_singleton_self]
      omega
    have := parsePeerVPCIDSized_mismatch _ 4 hlen
    exact this
  · intro src p hp
    by_cases hl : ((Split src "/").length : Int) = 4
    · obtain ⟨c0, c1, c2, c3, hc⟩ := list_of_length_four (Split src "/") (by omega)
      have h4 := parsePeerVPCIDSized_four src c0 c1 c2 c3 hc
      have hp2 : parsePeerVPCIDSized src 4 = some (.ok p) := hp
      rw [h4] at hp2
      cases hp2
      rfl
    · have hp2 : parsePeerVPCIDSized src 4 = some (.ok p) := hp
      rw [parsePeerVPCIDSized_mismatch src 4 hl] at hp2
      cases hp2

/-- Witness for C15: an id of four chunks parses without a region, and the id that create
builds with a region is rejected by `parsePeerVPCID` although `parsePeerVPCIDWithRegion`
would read it. -/
theorem parsePeerVPCID_rejects_region_witness :
    parsePeerVPCID "prj/vpc/acc/peer" = some (.ok ⟨"prj", "vpc", "acc", "peer", none⟩) ∧
    (⟨"prj", "vpc", "acc", "peer", none⟩ : peeringVPCID).peerRegion = none ∧
    parsePeerVPCID "prj/vpc/acc/peer/eu-west-1" =
      some (.error "expected unix path-like string with 4 chunks") ∧
    parsePeerVPCIDWithRegion "prj/vpc/acc/peer/eu-west-1" =
      some (.ok ⟨"prj", "vpc", "acc", "peer", some "eu-west-1"⟩) :=
  ⟨rfl,
   parsePeerVPCID_rejects_region.2 "prj/vpc/acc/peer" ⟨"prj", "vpc", "acc", "peer", none⟩ rfl,
   rfl, rfl⟩

/-! ## Theorems about `stateInfoToString` -/

/-- The `range` loop of `stateInfoToString` only appends to the string built so far. -/
theorem stateInfo_foldl_append (fmt : Formatter) (l : List (String × Value)) :
    ∀ init : String, ∃ rest : String,
      l.foldl (fun str e => str ++ stateInfoEntry fmt e) init = init ++ rest := by
  induction l with
  | nil => intro init; exact ⟨"", by simp⟩
  | cons e l ih =>
    intro init
    obtain ⟨rest, hrest⟩ := ih (init ++ stateInfoEntry fmt e)
    exact ⟨stateInfoEntry fmt e ++ rest, by
      rw [List.foldl_cons, hrest, String.append_assoc]⟩

/-- On a non-nil pointer `stateInfoToString` returns. -/
theorem stateInfoToString_some (fmt : Formatter) (m : List (String × Value)) :
    ∃ (info : String) (m1 : List (String × Value)),
      stateInfoToString fmt (some m) = some (info, m1) := by
  by_cases h : m.length = 0
  · exact ⟨_, _, show (if m.length = 0 then some ("", m) else _) = _ from if_pos h⟩
  · exact ⟨_, _, show (if m.length = 0 then some ("", m) else _) = _ from if_neg h⟩

/-- C17: `stateInfoToString` returns the empty string for every non-nil pointer to an empty
map; for every map that holds a string under `message` the result begins with that message;
and when `message` is the only key the result is exactly the message. -/
theorem stateInfoToString_message (fmt : Formatter) :
    stateInfoToString fmt (some []) = some ("", []) ∧
    (∀ (m : List (String × Value)) (msg : String),
      m.lookup "message" = some (Value.str msg) →
      ∃ (rest : String) (m1 : List (String × Value)),
        stateInfoToString fmt (some m) = some (msg ++ rest, m1)) ∧
    (∀ msg : String,
      stateInfoToString fmt (some [("message", Value.str msg)]) = some (msg, [])) := by
  refine ⟨rfl, ?_, fun msg => ?_⟩
  · intro m msg hm
    have hne : ¬ m.length = 0 := by
      intro h0
      have : m = [] := List.length_eq_zero.1 h0
      subst this
      cases hm
    obtain ⟨rest, hrest⟩ := stateInfo_foldl_append fmt
      (m.filter (fun e => e.1 != "message")) msg
    refine ⟨rest, m.filter (fun e => e.1 != "message"), ?_⟩
    unfold stateInfoToString
    simp only [if_neg hne, hm, sprintS, hrest]
  · simp [stateInfoToString, List.lookup, sprintS]

/-- Witness for C17: a state info with a message and one more entry, under a formatter that
quotes with brackets. -/
theorem stateInfoToString_message_witness :
    ∃ (rest : String) (m1 : List (String × Value)),
      stateInfoToString ⟨fun s => "<" ++ s ++ ">", fun _ => "?", fun _ => "?"⟩
        (some [("type", Value.str "aws"), ("message", Value.str "accept the request")]) =
        some ("accept the request" ++ rest, m1) :=
  (stateInfoToString_message ⟨fun s => "<" ++ s ++ ">", fun _ => "?", fun _ => "?"⟩).2.1
    [("type", Value.str "aws"), ("message", Value.str "accept the request")]
    "accept the request" rfl

/-! ## Theorems about `getDiagnosticsFromState` -/

/-- The three shapes of the result of `getDiagnosticsFromState` when the state info is not
nil: nothing for `ACTIVE`, one warning for `PENDING_PEER`, one error for any other state. -/
theorem getDiagnosticsFromState_shape (fmt : Formatter) (pc : VPCPeeringConnection)
    (m : List (String × Value)) (hinfo : pc.StateInfo = some m) :
    (pc.State = "ACTIVE" → getDiagnosticsFromState fmt pc = some ([], pc)) ∧
    (pc.State = "PENDING_PEER" → ∃ (summary : String) (pc1 : VPCPeeringConnection),
      getDiagnosticsFromState fmt pc = some ([⟨Severity.Warning, summary, ""⟩], pc1)) ∧
    (pc.State ≠ "ACTIVE" → pc.State ≠ "PENDING_PEER" →
      ∃ (summary : String) (pc1 : VPCPeeringConnection),
        getDiagnosticsFromState fmt pc = some ([⟨Severity.Error, summary, ""⟩], pc1)) := by
  obtain ⟨info, m1, hs⟩ := stateInfoToString_some fmt m
  refine ⟨fun h => ?_, fun h => ?_, fun h1 h2 => ?_⟩
  · unfold getDiagnosticsFromState
    rw [if_neg (not_not.2 h)]
  · have hna : pc.State ≠ "ACTIVE" := by rw [h]; decide
    unfold getDiagnosticsFromState
    rw [if_pos hna, if_pos h, hinfo, hs]
    exact ⟨_, _, rfl⟩
  · unfold getDiagnosticsFromState
    rw [if_pos h1, if_neg h2]
    by_cases h3 : pc.State = "DELETED"
    · rw [if_pos h3]; exact ⟨_, _, rfl⟩
    rw [if_neg h3]
    by_cases h4 : pc.State = "DELETED_BY_PEER"
    · rw [if_pos h4]; exact ⟨_, _, rfl⟩
    rw [if_neg h4]
    by_cases h5 : pc.State = "REJECTED_BY_PEER"
    · rw [if_pos h5, hinfo, hs]; exact ⟨_, _, rfl⟩
    rw [if_neg h5]
    by_cases h6 : pc.State = "INVALID_SPECIFICATION"
    · rw [if_pos h6, hinfo, hs]; exact ⟨_, _, rfl⟩
    rw [if_neg h6]
    exact ⟨_, _, rfl⟩

/-- C16: for every peering connection whose `state_info` is not nil, `getDiagnosticsFromState`
returns no diagnostics if and only if the state is `ACTIVE`; for `PENDING_PEER` it returns
exactly one diagnostic, a warning, and no error; for every other state, `DELETING` and
unlisted states included, it returns exactly one error diagnostic; hence the result has an
error if and only if the state is neither `ACTIVE` nor `PENDING_PEER`. -/
theorem getDiagnosticsFromState_by_state (fmt : Formatter) (pc : VPCPeeringConnection)
    (m : List (String × Value)) (hinfo : pc.StateInfo = some m) :
    ((∃ pc1, getDiagnosticsFromState fmt pc = some ([], pc1)) ↔ pc.State = "ACTIVE") ∧
    (pc.State = "PENDING_PEER" → ∃ (summary : String) (pc1 : VPCPeeringConnection),
      getDiagnosticsFromState fmt pc = some ([⟨Severity.Warning, summary, ""⟩], pc1) ∧
      HasError [⟨Severity.Warning, summary, ""⟩] = false) ∧
    (pc.State ≠ "ACTIVE" → pc.State ≠ "PENDING_PEER" →
      ∃ (summary : String) (pc1 : VPCPeeringConnection),
        getDiagnosticsFromState fmt pc = some ([⟨Severity.Error, summary, ""⟩], pc1)) ∧
    (∃ (diags : List Diagnostic) (pc1 : VPCPeeringConnection),
      getDiagnosticsFromState fmt pc = some (diags, pc1) ∧
      (HasError diags = true ↔ (pc.State ≠ "ACTIVE" ∧ pc.State ≠ "PENDING_PEER"))) := by
  obtain ⟨hact, hpend, hother⟩ := getDiagnosticsFromState_shape fmt pc m hinfo
  refine ⟨⟨?_, fun h => ⟨pc, hact h⟩⟩, ?_, hother, ?_⟩
  · rintro ⟨pc1, h1⟩
    by_contra hna
    by_cases hp : pc.State = "PENDING_PEER"
    · obtain ⟨summary, pc2, h2⟩ := hpend hp
      rw [h2] at h1
      cases h1
    · obtain ⟨summary, pc2, h2⟩ := hother hna hp
      rw [h2] at h1
      cases h1
  · intro hp
    obtain ⟨summary, pc1, h1⟩ := hpend hp
    exact ⟨summary, pc1, h1, rfl⟩
  · by_cases ha : pc.State = "ACTIVE"
    · refine ⟨[], pc, hact ha, ?_⟩
      constructor
      · intro h; cases h
      · rintro ⟨h, _⟩; exact absurd ha h
    · by_cases hp : pc.State = "PENDING_PEER"
      · obtain ⟨summary, pc1, h1⟩ := hpend hp
        refine ⟨_, pc1, h1, ?_⟩
        constructor
        · intro h; cases h
        · rintro ⟨_, h⟩; exact absurd hp h
      · obtain ⟨summary, pc1, h1⟩ := hother ha hp
        exact ⟨_, pc1, h1, fun _ => ⟨ha, hp⟩, fun _ => rfl⟩

/-- Witness for C16: the state `DELETING`, a target state of the wait in create, gives one
error diagnostic; `PENDING_PEER` gives one warning and `ACTIVE` gives nothing. -/
theorem getDiagnosticsFromState_by_state_witness :
    (∃ (summary : String) (pc1 : VPCPeeringConnection),
      getDiagnosticsFromState ⟨id, fun _ => "", fun _ => ""⟩ ⟨"DELETING", some []⟩ =
        some ([⟨Severity.Error, summary, ""⟩], pc1)) ∧
    getDiagnosticsFromState ⟨id, fun _ => "", fun _ => ""⟩ ⟨"DELETING", some []⟩ =
      some ([⟨Severity.Error, "Unknown VPC peering connection state: DELETING", ""⟩],
        ⟨"DELETING", some []⟩) ∧
    getDiagnosticsFromState ⟨id, fun _ => "", fun _ => ""⟩ ⟨"ACTIVE", some []⟩ =
      some ([], ⟨"ACTIVE", some []⟩) :=
  ⟨(getDiagnosticsFromState_by_state ⟨id, fun _ => "", fun _ => ""⟩ ⟨"DELETING", some []⟩ []
      rfl).2.2.1 (by decide) (by decide),
   rfl, rfl⟩

end Vpc
